import Mathlib

/-!
Shallow embedding of the search-service query orchestrator
(repository `UOSbioinformaticslab/search-service`, Go).

The embedding covers, faithfully to the Go source:

* the field-override cache and its operations
  (`resolveAggregationField`, `setAggregationFieldOverride`,
  `updateAggregationOverridesFromError` in `pkg/elastic_helpers.go`);
* the execute/detect/retry protocol (`executeSearchWithRetry`);
* the filter-listing loop (`ListFilters`, `filtersRequest`, `safeAggValue`);
* the per-entity filter-to-clause translation loops of
  `datasetElasticConfig`, `toolsElasticConfig`, `publicationElasticConfig`;
* aggregation flattening (`flattenAggs`) and `populationRanges`;
* the fan-out/join merge of `SearchGeneric`.

Modelling conventions:

* Go `interface{}` values decoded from JSON are modelled by `JsonVal`;
  Go maps (`gin.H`, `map[string]interface{}`) are association lists with
  first-match lookup and overwrite-on-insert, matching Go map semantics up to
  iteration order (Go iteration order is unspecified; list order stands for
  one arbitrary order).
* JSON numbers are modelled as `Int`: every numeric literal the code
  manipulates (`-1`, `1`, `10^i` for `i ≤ 9`) is exactly representable in
  `float64`, so no rounding behaviour is lost.
* The Elasticsearch backend is an oracle: a function from attempt number to
  the response the backend would give.  All theorems quantify over every
  oracle, hence over every backend behaviour.
* A Go panic (failed type assertion, out-of-range index) is modelled with
  `Except GoPanic`.
-/

/-- A JSON value as decoded into Go `interface{}`. -/
inductive JsonVal where
  | null
  | bool (b : Bool)
  | num (n : Int)
  | str (s : String)
  | arr (xs : List JsonVal)
  | obj (kvs : List (String × JsonVal))

/-- First-match lookup in an association list; models Go map indexing `m[k]`. -/
def lookupA {α : Type} : List (String × α) → String → Option α
  | [], _ => none
  | (k', v') :: rest, k => if k' = k then some v' else lookupA rest k

/-- Overwrite-or-append insertion; models Go map assignment `m[k] = v`. -/
def insertA {α : Type} : List (String × α) → String → α → List (String × α)
  | [], k, v => [(k, v)]
  | (k', v') :: rest, k, v =>
      if k' = k then (k, v) :: rest else (k', v') :: insertA rest k v

/-- Byte-wise prefix test on character lists. -/
def isPrefixL : List Char → List Char → Bool
  | [], _ => true
  | _ :: _, [] => false
  | a :: as, b :: bs => a = b && isPrefixL as bs

/-- Substring occurrence test; models Go `strings.Contains(hay, needle)`. -/
def containsL : List Char → List Char → Bool
  | [], n => n.isEmpty
  | c :: rest, n => isPrefixL n (c :: rest) || containsL rest n

/-- `strings.Contains` on `String`. -/
def strContains (s sub : String) : Bool :=
  containsL s.data sub.data

/-- The white-space predicate of Go `unicode.IsSpace` restricted to the
Latin-1 range (the only code points Go trims that can occur here). -/
def goIsSpace (c : Char) : Bool :=
  c = ' ' || c = '\t' || c = '\n' || c = Char.ofNat 11 || c = Char.ofNat 12 ||
    c = '\r' || c = Char.ofNat 0x85 || c = Char.ofNat 0xA0

/-- Go `strings.TrimSpace`. -/
def goTrimSpace (s : String) : String :=
  String.mk (((s.data.dropWhile goIsSpace).reverse.dropWhile goIsSpace).reverse)

/-- Whether a string contains the literal space character, as in
Go `strings.Contains(field, " ")`. -/
def hasSpace (s : String) : Bool :=
  s.data.any (fun c => c = ' ')

/-- Suffix test on character lists, via reversal. -/
def isSuffixL (suf l : List Char) : Bool :=
  isPrefixL suf.reverse l.reverse

/-- Go `strings.TrimSuffix(s, ".keyword")`: removes one trailing `.keyword`
if present, otherwise returns the string unchanged. -/
def trimSuffixKeyword (s : String) : String :=
  if isSuffixL ".keyword".data s.data then
    String.mk (s.data.take (s.data.length - 8))
  else s

/- All capture groups of Go regexp `\[([^\[\]]+)\]` over a string, leftmost
first, non-overlapping: the maximal bracket-free, non-empty runs enclosed in
square brackets. -/
mutual

/-- Scans for the next opening bracket; models the match search of
Go `fielddataRegex.FindAllStringSubmatch(reason, -1)`. -/
def extractBrackets : List Char → List String
  | [] => []
  | c :: rest =>
      if c = '[' then bracketContent rest []
      else extractBrackets rest

/-- Accumulates the content of the currently open bracket, restarting when a
nested opening bracket is met (as the regexp does, since `[` cannot occur in
the capture group). -/
def bracketContent : List Char → List Char → List String
  | [], _ => []
  | c :: rest, acc =>
      if c = ']' then
        if acc.isEmpty then extractBrackets rest
        else String.mk acc.reverse :: extractBrackets rest
      else if c = '[' then bracketContent rest []
      else bracketContent rest (c :: acc)

end

/-- `extractBrackets` on a `String`. -/
def extractBracketsS (s : String) : List String :=
  extractBrackets s.data

/-- The process-wide override map `aggregationFieldOverrides`
(`map[string]string` in `pkg/elastic_helpers.go`). -/
abbrev OverrideCache := List (String × String)

/-- `resolveAggregationField` (`pkg/elastic_helpers.go:22`): an override
replaces the key; an absent key resolves to itself. -/
def resolveAggregationField (cache : OverrideCache) (key : String) : String :=
  match lookupA cache key with
  | some override => override
  | none => key

/-- `setAggregationFieldOverride` (`pkg/elastic_helpers.go:33`): upsert that
returns early when the identical mapping is already present. -/
def setAggregationFieldOverride (cache : OverrideCache) (key override : String) :
    OverrideCache :=
  match lookupA cache key with
  | some existing => if existing = override then cache else insertA cache key override
  | none => insertA cache key override

/-- One entry of the backend error's `root_cause` array. -/
structure RootCause where
  type : String
  reason : String
  index : String
  deriving DecidableEq

/-- `SearchErrorResponse`: the decoded backend error envelope. -/
structure SearchErrorResponse where
  error : List (String × List RootCause)
  status : Int
  deriving DecidableEq

/-- The raw bytes of a backend response body, as far as
`updateAggregationOverridesFromError` can distinguish them:
empty, non-empty but not decodable into `SearchErrorResponse`,
or non-empty and decoded. -/
inductive Body where
  | empty
  | undecodable
  | decoded (e : SearchErrorResponse)
  deriving DecidableEq

/-- The body of the inner `for _, match := range matches` loop of
`updateAggregationOverridesFromError` (`pkg/elastic_helpers.go:140`),
acting on the state `(cache, updated)` for one captured bracket token. -/
def processToken (st : OverrideCache × Bool) (tok : String) : OverrideCache × Bool :=
  let field := goTrimSpace tok
  if field = "" || hasSpace field then st
  else
    let field := trimSuffixKeyword field
    let override := field ++ ".keyword"
    match lookupA st.1 field with
    | some _ =>
        -- Override already exists, but the code still counts this as an
        -- update (explicit comment in the source at elastic_helpers.go:157).
        (st.1, true)
    | none => (setAggregationFieldOverride st.1 field override, true)

/-- The body of the outer `for _, cause := range rootCauses` loop of
`updateAggregationOverridesFromError` (`pkg/elastic_helpers.go:133`). -/
def processCause (st : OverrideCache × Bool) (cause : RootCause) : OverrideCache × Bool :=
  if !(strContains cause.reason "Text fields are not optimised" ||
        strContains cause.reason "Fielddata is disabled") then st
  else (extractBracketsS cause.reason).foldl processToken st

/-- `updateAggregationOverridesFromError` (`pkg/elastic_helpers.go:117`):
returns the cache after the scan together with the `updated` flag. -/
def updateAggregationOverridesFromError (cache : OverrideCache) (body : Body) :
    OverrideCache × Bool :=
  match body with
  | .empty => (cache, false)
  | .undecodable => (cache, false)
  | .decoded e =>
      match lookupA e.error "root_cause" with
      | none => (cache, false)
      | some [] => (cache, false)
      | some causes => causes.foldl processCause (cache, false)

/-- A hit of a search response. Only its presence matters to the modelled
control flow (`resp.Hits.Hits != nil`), so the payload is reduced to the
document id and score. -/
structure HitM where
  id : String
  score : Int
  deriving DecidableEq

/-- The decoded `SearchResponse` fields the modelled code inspects:
`Hits.Hits` (`none` models a nil slice) and `Aggregations`. -/
structure SearchResponseM where
  hits : Option (List HitM)
  aggregations : List (String × JsonVal)

/-- Result of `executeSearchWithRetry`, extended with the two observables the
source keeps in global state or control flow: the override cache after the
call and the number of backend attempts made. -/
structure RetryResult where
  resp : SearchResponseM
  body : Body
  cache : OverrideCache
  attempts : Nat

/-- `executeSearchWithRetry` (`pkg/elastic_helpers.go:94`), with the backend
abstracted into an oracle from attempt number to `(response, body)`.  The
`for attempt := 0; attempt < 2` loop is unrolled: after attempt 0 the loop
continues only when hits are nil, the body is non-empty, and
`updateAggregationOverridesFromError` reported an update; after attempt 1 the
loop always stops, but (as in the source) the override scan still runs when
attempt 1 also returned nil hits and a non-empty body. -/
def executeSearchWithRetry (oracle : Nat → SearchResponseM × Body)
    (cache : OverrideCache) : RetryResult :=
  let r0 := (oracle 0).1
  let b0 := (oracle 0).2
  if r0.hits ≠ none ∨ b0 = Body.empty then
    { resp := r0, body := b0, cache := cache, attempts := 1 }
  else
    let u0 := updateAggregationOverridesFromError cache b0
    if !u0.2 then
      { resp := r0, body := b0, cache := u0.1, attempts := 1 }
    else
      let r1 := (oracle 1).1
      let b1 := (oracle 1).2
      if r1.hits ≠ none ∨ b1 = Body.empty then
        { resp := r1, body := b1, cache := u0.1, attempts := 2 }
      else
        let u1 := updateAggregationOverridesFromError u0.1 b1
        { resp := r1, body := b1, cache := u1.1, attempts := 2 }

/-- Specification-side predicate (from the spec's words in section 4.3): one
bracketed token of the reason is a usable field name: non-blank after
trimming and without an inner space. -/
def validToken (tok : String) : Bool :=
  let field := goTrimSpace tok
  !(field = "" || hasSpace field)

/-- Specification-side predicate: a root cause matches the recoverable
mapping-error signature: its reason mentions one of the two known phrases and
carries a usable bracketed field name. -/
def causeTriggers (cause : RootCause) : Bool :=
  (strContains cause.reason "Text fields are not optimised" ||
      strContains cause.reason "Fielddata is disabled") &&
    (extractBracketsS cause.reason).any validToken

/-- Specification-side predicate: the response body decodes to an error
envelope one of whose root causes matches the recoverable signature. -/
def bodySignature (body : Body) : Bool :=
  match body with
  | .empty => false
  | .undecodable => false
  | .decoded e =>
      match lookupA e.error "root_cause" with
      | none => false
      | some causes => causes.any causeTriggers

/-- A Go runtime panic reachable in the filter-translation loops. -/
inductive GoPanic where
  | typeAssertion
  | indexOutOfRange
  deriving DecidableEq

/-- One `{"term": {key: t}}` clause. -/
def termClause (key : String) (t : JsonVal) : JsonVal :=
  .obj [("term", .obj [(key, t)])]

/-- `{"bool": {"should": cs}}`. -/
def boolShould (cs : List JsonVal) : JsonVal :=
  .obj [("bool", .obj [("should", .arr cs)])]

/-- `{"bool": {"must": cs}}`. -/
def boolMust (cs : List JsonVal) : JsonVal :=
  .obj [("bool", .obj [("must", .arr cs)])]

/-- The generic branch of every per-entity filter loop: one term clause per
value of the key, combined under `should` (`case_searches.go`, e.g.
`toolsElasticConfig` lines 629-640).  The Go source asserts
`terms.([]interface{})` without a comma-ok form, so a non-list value panics. -/
def genericTermFilter (key : String) (terms : JsonVal) : Except GoPanic JsonVal :=
  match terms with
  | .arr ts => .ok (boolShould (ts.map (fun t => termClause key t)))
  | _ => .error .typeAssertion

/-- One iteration of the `for key, terms := range query.Filters["dataset"]`
loop of `datasetElasticConfig` (part_001 lines 398-445): `dateRange` and
`populationSize` get range clauses, everything else the generic term clauses.
The unchecked type assertions and index expressions of the source are
modelled as panics. -/
def datasetFilterClause (key : String) (terms : JsonVal) : Except GoPanic JsonVal :=
  if key = "dateRange" then
    match terms with
    | .arr ts =>
        match ts with
        | t0 :: t1 :: _ =>
            .ok (boolMust
              [.obj [("range", .obj [("startDate", .obj [("lte", t1)])])],
               .obj [("range", .obj [("endDate", .obj [("gte", t0)])])]])
        | _ => .error .indexOutOfRange
    | _ => .error .typeAssertion
  else if key = "populationSize" then
    match terms with
    | .obj kvs =>
        match lookupA kvs "includeUnreported" with
        | some (.bool includeNull) =>
            let fromV := (lookupA kvs "from").getD .null
            let toV := (lookupA kvs "to").getD .null
            if includeNull then
              .ok (boolShould
                [.obj [("range", .obj [(key, .obj [("gte", fromV), ("lte", toV)])])],
                 .obj [("term", .obj [("populationSize", .num (-1))])]])
            else
              .ok (boolMust
                [.obj [("range", .obj [(key, .obj [("gte", fromV), ("lte", toV)])])]])
        | _ => .error .typeAssertion
    | _ => .error .typeAssertion
  else genericTermFilter key terms

/-- One iteration of the filter loop of `toolsElasticConfig` (part_001 lines
629-640): every key takes the generic branch; there is no range special case
for the tools index. -/
def toolsFilterClause (key : String) (terms : JsonVal) : Except GoPanic JsonVal :=
  genericTermFilter key terms

/-- One iteration of the filter loop of `publicationElasticConfig` (part_001
lines 1215-1238): only `publicationDate` gets a range clause. -/
def publicationFilterClause (key : String) (terms : JsonVal) : Except GoPanic JsonVal :=
  if key = "publicationDate" then
    match terms with
    | .arr ts =>
        match ts with
        | t0 :: t1 :: _ =>
            .ok (boolMust
              [.obj [("range", .obj [("publicationDate", .obj [("gte", t0)])])],
               .obj [("range", .obj [("publicationDate", .obj [("lte", t1)])])]])
        | _ => .error .indexOutOfRange
    | _ => .error .typeAssertion
  else genericTermFilter key terms

/-- Runs a per-entry clause builder over the whole filter bucket, appending
clauses in iteration order as the Go loops do; the first panic aborts the
whole translation (the goroutine dies and no query document is produced). -/
def buildMustFilters (clauseOf : String → JsonVal → Except GoPanic JsonVal) :
    List (String × JsonVal) → Except GoPanic (List JsonVal)
  | [] => .ok []
  | (key, terms) :: rest => do
      let c ← clauseOf key terms
      let cs ← buildMustFilters clauseOf rest
      pure (c :: cs)

/-- The `mustFilters` list of `datasetElasticConfig` for the entity's filter
bucket. -/
def datasetMustFilters (filters : List (String × JsonVal)) :
    Except GoPanic (List JsonVal) :=
  buildMustFilters datasetFilterClause filters

/-- The `mustFilters` list of `toolsElasticConfig`. -/
def toolsMustFilters (filters : List (String × JsonVal)) :
    Except GoPanic (List JsonVal) :=
  buildMustFilters toolsFilterClause filters

/-- The `mustFilters` list of `publicationElasticConfig`. -/
def publicationMustFilters (filters : List (String × JsonVal)) :
    Except GoPanic (List JsonVal) :=
  buildMustFilters publicationFilterClause filters

/-- The `post_filter` value `f1 = {"bool": {"must": mustFilters}}` each
config builds from its must-filter list. -/
def postFilterOf (mustFilters : Except GoPanic (List JsonVal)) :
    Except GoPanic JsonVal :=
  mustFilters.map boolMust

/-- One bucket of `populationRanges` (part_001 lines 1675-1682).  The Go
values are `float64`, but every value produced (`-1`, `1`, `10^i` for
`i ≤ 9`) is an exactly-representable integer, so `Int` is faithful. -/
structure PopRange where
  rangeFrom : Int
  rangeTo : Int
  key : Option String
  deriving DecidableEq

/-- `populationRanges()` (part_001 lines 1675-1682): the unreported bucket
followed by the nine power-of-ten buckets appended for `i = 0..8`. -/
def populationRanges : List PopRange :=
  { rangeFrom := -1, rangeTo := 1, key := some "Unreported" } ::
    (List.range 9).map
      (fun i => { rangeFrom := 10 ^ i, rangeTo := 10 ^ (i + 1), key := none })

/-- `flattenAggs` (part_001 lines 1684-1712): one pass over the aggregations
map.  Non-map values are skipped; `dateRange`/`publicationDate` have their
`startDate`/`endDate` sub-values hoisted; an aggregation object containing a
sub-object under its own name has that sub-object hoisted; anything else is
copied unchanged. -/
def flattenAggs (elasticResp : SearchResponseM) : List (String × JsonVal) :=
  elasticResp.aggregations.foldl
    (fun newAggs kv =>
      match kv.2 with
      | .obj aggMap =>
          if kv.1 = "dateRange" ∨ kv.1 = "publicationDate" then
            let newAggs :=
              match lookupA aggMap "startDate" with
              | some start => insertA newAggs "startDate" start
              | none => newAggs
            match lookupA aggMap "endDate" with
            | some endV => insertA newAggs "endDate" endV
            | none => newAggs
          else
            match lookupA aggMap kv.1 with
            | some nested => insertA newAggs kv.1 nested
            | none => insertA newAggs kv.1 (.obj aggMap)
      | _ => newAggs)
    []

/-- Go formatting `fmt.Sprintf("%v", value)` restricted to the scalar JSON
values `safeAggValue` can meet; composite values are abstracted (no modelled
claim inspects the rendering of a composite). -/
def goFormat : JsonVal → String
  | .str s => s
  | .num n => toString n
  | .bool b => if b then "true" else "false"
  | .null => "<nil>"
  | .arr _ => "<composite>"
  | .obj _ => "<composite>"

/-- `safeAggValue` (part_000 lines 248-272): extracts `value_as_string` when
it is a non-empty string, falling back to formatting a non-nil `value`. -/
def safeAggValue (aggs : List (String × JsonVal)) (key : String) : Option String :=
  match lookupA aggs key with
  | none => none
  | some .null => none
  | some (.obj aggMap) =>
      match lookupA aggMap "value_as_string" with
      | some (.str v) =>
          if v ≠ "" then some v
          else
            match lookupA aggMap "value" with
            | some .null => none
            | some v => some (goFormat v)
            | none => none
      | _ =>
          match lookupA aggMap "value" with
          | some .null => none
          | some v => some (goFormat v)
          | none => none
  | some _ => none

/-- `filtersRequest` (part_000 lines 192-246): the aggregation-only query
built for one `(type, keys)` pair, consulting the override cache for the
generic terms branch. -/
def filtersRequest (cache : OverrideCache) (filter : List (String × JsonVal)) : JsonVal :=
  let filterKey :=
    match lookupA filter "keys" with
    | some (.str s) => s
    | _ => ""
  if filterKey = "dateRange" then
    .obj [("size", .num 0),
          ("aggs", .obj
            [("startDate", .obj [("min", .obj [("field", .str "startDate")])]),
             ("endDate", .obj [("max", .obj [("field", .str "endDate")])])])]
  else if filterKey = "publicationDate" then
    .obj [("size", .num 0),
          ("aggs", .obj
            [("startDate", .obj [("min", .obj [("field", .str "publicationDate")])]),
             ("endDate", .obj [("max", .obj [("field", .str "publicationDate")])])])]
  else if filterKey = "populationSize" then
    .obj [("size", .num 0),
          ("aggs", .obj
            [("populationSize", .obj
              [("range", .obj
                [("field", .str filterKey),
                 ("ranges", .arr (populationRanges.map (fun r =>
                   match r.key with
                   | some k => .obj [("from", .num r.rangeFrom), ("to", .num r.rangeTo),
                                     ("key", .str k)]
                   | none => .obj [("from", .num r.rangeFrom), ("to", .num r.rangeTo)])))])])])]
  else
    .obj [("size", .num 0),
          ("aggs", .obj
            [(filterKey, .obj
              [("terms", .obj
                [("field", .str (resolveAggregationField cache filterKey)),
                 ("size", .num 1000)])])])]

/-- The outcomes of one backend call inside the `ListFilters` attempt loop, as
far as its control flow can distinguish them: transport error, nil response,
HTTP status at least 400 (with the raw error body), body read failure, or a
readable 2xx/3xx body together with its decoding into `SearchResponse`
(`json.Unmarshal`'s error is ignored by the source, so an undecodable body
simply yields the zero-valued response). -/
inductive CallOutcome where
  | transportError
  | nilResponse
  | httpError (body : Body)
  | readError
  | okResp (body : Body) (resp : SearchResponseM)

/-- What one iteration of the `for attempt := 0; attempt < 2` loop of
`ListFilters` decides: stop with a final per-pair result, or retry after an
override update. -/
inductive AttemptStep where
  | finished (res : Option JsonVal) (cache : OverrideCache)
  | retry (cache : OverrideCache)

/-- The two-entry bucket payload built for the date-like keys
(part_000 lines 160-175). -/
def dateBucketData (filterType filterKey startDate endDate : String) : JsonVal :=
  .obj [(filterType, .obj
    [(filterKey, .obj
      [("buckets", .arr
        [.obj [("key", .str "startDate"), ("value", .str startDate)],
         .obj [("key", .str "endDate"), ("value", .str endDate)]])])])]

/-- One iteration of the `ListFilters` attempt loop (part_000 lines 81-182).
`isFirst` tells whether this is attempt 0; the `attempt == 0 &&
updateAggregationOverridesFromError(body)` guards short-circuit, so on
attempt 1 the override scan is not even run. -/
def attemptOnce (cache : OverrideCache) (filterType filterKey : String)
    (outcome : CallOutcome) (isFirst : Bool) : AttemptStep :=
  match outcome with
  | .transportError => .finished none cache
  | .nilResponse => .finished none cache
  | .httpError body =>
      if isFirst then
        let u := updateAggregationOverridesFromError cache body
        if u.2 then .retry u.1 else .finished none u.1
      else .finished none cache
  | .readError => .finished none cache
  | .okResp body resp =>
      if resp.aggregations.isEmpty then
        if isFirst then
          let u := updateAggregationOverridesFromError cache body
          if u.2 then .retry u.1 else .finished none u.1
        else .finished none cache
      else if filterKey = "dateRange" ∨ filterKey = "publicationDate" then
        match safeAggValue resp.aggregations "startDate" with
        | none => .finished none cache
        | some startDate =>
            match safeAggValue resp.aggregations "endDate" with
            | none => .finished none cache
            | some endDate =>
                .finished (some (dateBucketData filterType filterKey startDate endDate))
                  cache
      else .finished (some (.obj [(filterType, .obj resp.aggregations)])) cache

/-- Result of processing one `(type, keys)` pair: the optional filter data,
the override cache afterwards, and how many backend calls were made. -/
structure PairResult where
  res : Option JsonVal
  cache : OverrideCache
  calls : Nat

/-- The per-pair attempt loop of `ListFilters` for one `(type, keys)` pair,
with the backend abstracted into an oracle from attempt number to outcome.
At most the two iterations `attempt = 0, 1` exist; a `retry` from attempt 1
is impossible (`attemptOnce _ _ _ _ false` never retries) but the catch-all
keeps the definition total. -/
def processPairLoop (oracle : Nat → CallOutcome) (filterType filterKey : String)
    (cache : OverrideCache) : PairResult :=
  match attemptOnce cache filterType filterKey (oracle 0) true with
  | .finished res c => { res := res, cache := c, calls := 1 }
  | .retry c =>
      match attemptOnce c filterType filterKey (oracle 1) false with
      | .finished res c' => { res := res, cache := c', calls := 2 }
      | .retry c' => { res := none, cache := c', calls := 2 }

/-- Binds `filterType`/`filterKey` from the raw pair exactly as the source's
comma-ok assertions do (a missing or non-string value leaves the zero value
`""` and processing continues), then runs the attempt loop. -/
def processPair (oracle : Nat → CallOutcome) (pair : List (String × JsonVal))
    (cache : OverrideCache) : PairResult :=
  let filterType :=
    match lookupA pair "type" with
    | some (.str s) => s
    | _ => ""
  let filterKey :=
    match lookupA pair "keys" with
    | some (.str s) => s
    | _ => ""
  processPairLoop oracle filterType filterKey cache

/-- The `for _, filter := range filterRequest.Filters` loop of `ListFilters`
(part_000 lines 57-187): successes are appended to `allFilters` in input
order, failed pairs contribute nothing, and the override cache threads from
pair to pair.  The oracle takes the pair's position and the attempt number. -/
def listFiltersLoop (oracle : Nat → Nat → CallOutcome) (cache : OverrideCache)
    (i : Nat) : List (List (String × JsonVal)) → List JsonVal
  | [] => []
  | pair :: rest =>
      let r := processPair (oracle i) pair cache
      match r.res with
      | some d => d :: listFiltersLoop oracle r.cache (i + 1) rest
      | none => listFiltersLoop oracle r.cache (i + 1) rest

/-- `ListFilters` (part_000 lines 49-190): the response payload (the ordered
success list) and the HTTP status, which the handler always sets to
`http.StatusOK` via `c.JSON(http.StatusOK, ...)`. -/
def ListFilters (oracle : Nat → Nat → CallOutcome)
    (pairs : List (List (String × JsonVal))) (cache : OverrideCache) :
    List JsonVal × Nat :=
  (listFiltersLoop oracle cache 0 pairs, 200)

/-- Specification-side companion of `listFiltersLoop`: the per-pair outcomes,
one `Option` per input pair, in input order, threading the cache identically. -/
def pairOutcomes (oracle : Nat → Nat → CallOutcome) (cache : OverrideCache)
    (i : Nat) : List (List (String × JsonVal)) → List (Option JsonVal)
  | [] => []
  | pair :: rest =>
      let r := processPair (oracle i) pair cache
      r.res :: pairOutcomes oracle r.cache (i + 1) rest

/-- The seven entity-type keys under which `SearchGeneric` (part_001 lines
203-247) stores its branch results. -/
def entityKeys : List String :=
  ["dataset", "tool", "collection", "dataUseRegister", "publication",
   "dataProvider", "datacustodiannetwork"]

/-- The seven channel payloads: each branch computes its entity's search
result from the one shared query; `f` abstracts the per-entity pipeline
(`datasetSearch`, `toolSearch`, ...) applied to that query. -/
def entityChannels (f : String → SearchResponseM) : List (String × SearchResponseM) :=
  entityKeys.map (fun k => (k, f k))

/-- The join loop of `SearchGeneric`: seven `select` iterations, each storing
one received branch result under that branch's fixed key in `results`.  The
arrival list is the order in which the seven channels became ready; the fold
performs the seven map assignments in that order. -/
def searchGenericMerge (arrival : List (String × SearchResponseM)) :
    List (String × SearchResponseM) :=
  arrival.foldl (fun results kv => insertA results kv.1 kv.2) []

/-- Specification-side clause shape for the dataset index, written from the
(amended) claim: `dateRange` and `populationSize` are range keys, everything
else is a generic term key; returns `none` on a value whose shape does not
fit its key. -/
def specDatasetClause (key : String) (terms : JsonVal) : Option JsonVal :=
  if key = "dateRange" then
    match terms with
    | .arr (t0 :: t1 :: _) =>
        some (boolMust
          [.obj [("range", .obj [("startDate", .obj [("lte", t1)])])],
           .obj [("range", .obj [("endDate", .obj [("gte", t0)])])]])
    | _ => none
  else if key = "populationSize" then
    match terms with
    | .obj kvs =>
        match lookupA kvs "includeUnreported" with
        | some (.bool b) =>
            let fromV := (lookupA kvs "from").getD .null
            let toV := (lookupA kvs "to").getD .null
            let rangeC := .obj [("range", .obj [(key, .obj [("gte", fromV), ("lte", toV)])])]
            if b then
              some (boolShould [rangeC, .obj [("term", .obj [("populationSize", .num (-1))])]])
            else some (boolMust [rangeC])
        | _ => none
    | _ => none
  else
    match terms with
    | .arr ts => some (boolShould (ts.map (fun t => termClause key t)))
    | _ => none

/-- Specification-side clause shape for the tools index: every key is a
generic term key. -/
def specToolsClause (key : String) (terms : JsonVal) : Option JsonVal :=
  match terms with
  | .arr ts => some (boolShould (ts.map (fun t => termClause key t)))
  | _ => none

/-- Specification-side clause shape for the publication index: only
`publicationDate` is a range key. -/
def specPublicationClause (key : String) (terms : JsonVal) : Option JsonVal :=
  if key = "publicationDate" then
    match terms with
    | .arr (t0 :: t1 :: _) =>
        some (boolMust
          [.obj [("range", .obj [("publicationDate", .obj [("gte", t0)])])],
           .obj [("range", .obj [("publicationDate", .obj [("lte", t1)])])]])
    | _ => none
  else
    match terms with
    | .arr ts => some (boolShould (ts.map (fun t => termClause key t)))
    | _ => none

/-- Runs a specification-side clause function over a filter bucket; `none` as
soon as one entry's shape does not fit. -/
def specTranslate (clauseOf : String → JsonVal → Option JsonVal) :
    List (String × JsonVal) → Option (List JsonVal)
  | [] => some []
  | (key, terms) :: rest => do
      let c ← clauseOf key terms
      let cs ← specTranslate clauseOf rest
      pure (c :: cs)

/-- Whether a translated filter clause carries an explicit range sub-clause:
a top-level `bool` body whose clause list contains an object keyed `range`.
Used to state which keys received the range treatment. -/
def hasRangeSubclause (c : JsonVal) : Bool :=
  match c with
  | .obj [("bool", .obj [(_, .arr subs)])] =>
      subs.any (fun s =>
        match s with
        | .obj kvs => kvs.any (fun kv => kv.1 = "range")
        | _ => false)
  | _ => false

/-- An aggregations map that is already flat: keys are distinct, no key is
one of the two range special cases, and every value is an object that does
not nest a sub-object under its own key. -/
def isFlatB (aggs : List (String × JsonVal)) : Bool :=
  decide (aggs.map Prod.fst).Nodup &&
    aggs.all (fun kv =>
      match kv.2 with
      | .obj fields =>
          decide (kv.1 ≠ "dateRange") && decide (kv.1 ≠ "publicationDate") &&
            (lookupA fields kv.1).isNone
      | _ => false)

/-- The invariant of the override cache (amended form): stored keys carry no
space character and every stored value is its key with `.keyword` appended. -/
def CacheInv (cache : OverrideCache) : Prop :=
  ∀ p ∈ cache, hasSpace p.1 = false ∧ p.2 = p.1 ++ ".keyword"

/-- Claim-side wording of the recoverable error signature: the raw body
decodes to an error envelope whose root-cause reasons contain one of the two
known phrases together with a bracketed field-name token. -/
def errorSignature (body : Body) : Prop :=
  ∃ e causes cause, body = Body.decoded e ∧
    lookupA e.error "root_cause" = some causes ∧ cause ∈ causes ∧
    (strContains cause.reason "Text fields are not optimised" = true ∨
      strContains cause.reason "Fielddata is disabled" = true) ∧
    extractBracketsS cause.reason ≠ []

/-- A realistic fielddata error body whose bracketed field already has a
cache entry in the scenario of claim C1. -/
def fielddataBody : Body :=
  .decoded
    { error :=
        [("root_cause",
          [{ type := "illegal_argument_exception",
             reason := "Fielddata is disabled on text fields by default. Set fielddata=true on [publisherName]",
             index := "dataset" }])],
      status := 400 }

/-- A cache that already holds the override for `publisherName`. -/
def presetCache : OverrideCache := [("publisherName", "publisherName.keyword")]

/-- A backend that answers every attempt with nil hits and the fielddata
error body. -/
def fielddataOracle : Nat → SearchResponseM × Body :=
  fun _ => ({ hits := none, aggregations := [] }, fielddataBody)

/-- A filter bucket for the tools index holding one well-formed term list and
one malformed (non-list) value, as a caller could send. -/
def malformedToolFilters : List (String × JsonVal) :=
  [("keywords", .arr [.str "asthma"]), ("publisherName", .str "PUBLISHER A")]

/-- A text-fields error body naming `[toolName]`, used to exercise the retry
protocol of claim C3. -/
def textFieldsBody : Body :=
  .decoded
    { error :=
        [("root_cause",
          [{ type := "search_phase_execution_exception",
             reason := "Text fields are not optimised for operations on [toolName]",
             index := "tool" }])],
      status := 400 }

/-- A backend that answers every attempt with nil hits and the text-fields
error body. -/
def textFieldsOracle : Nat → SearchResponseM × Body :=
  fun _ => ({ hits := none, aggregations := [] }, textFieldsBody)

/-- A well-formed dataset filter bucket covering all three clause shapes. -/
def datasetSampleFilters : List (String × JsonVal) :=
  [("dateRange", .arr [.str "2020-01-01", .str "2021-12-31"]),
   ("publisherName", .arr [.str "A", .str "B"]),
   ("populationSize", .obj [("includeUnreported", .bool true),
                            ("from", .num 100), ("to", .num 1000)])]

/-- The clauses the dataset translator emits for `datasetSampleFilters`. -/
def datasetSampleClauses : List JsonVal :=
  [boolMust
     [.obj [("range", .obj [("startDate", .obj [("lte", .str "2021-12-31")])])],
      .obj [("range", .obj [("endDate", .obj [("gte", .str "2020-01-01")])])]],
   boolShould [termClause "publisherName" (.str "A"),
               termClause "publisherName" (.str "B")],
   boolShould
     [.obj [("range", .obj [("populationSize", .obj [("gte", .num 100), ("lte", .num 1000)])])],
      .obj [("term", .obj [("populationSize", .num (-1))])]]]

/-- A `dateRange` filter entry with a two-element value list. -/
def dateRangeFilterEntry : List (String × JsonVal) :=
  [("dateRange", .arr [.str "2020-01-01", .str "2021-12-31"])]

/-- A sample per-branch result function for the fan-out witness. -/
def sampleBranchResults : String → SearchResponseM :=
  fun k => { hits := some [{ id := k, score := 1 }], aggregations := [] }

/-- An aggregations map on which flattening is not idempotent: the value
nests a sub-object under its own key twice. -/
def doublyNestedResp : SearchResponseM :=
  { hits := none, aggregations := [("a", .obj [("a", .obj [("a", .num 1)])])] }

/-- A flat aggregations map (terms buckets under a distinct key). -/
def flatSampleResp : SearchResponseM :=
  { hits := none, aggregations := [("publisherName", .obj [("buckets", .arr [])])] }

/-- An error body whose bracketed token is exactly `.keyword`: trimming the
suffix leaves the empty field name, which the code then stores. -/
def bareKeywordBody : Body :=
  .decoded
    { error :=
        [("root_cause",
          [{ type := "illegal_argument_exception",
             reason := "Fielddata is disabled on [.keyword]",
             index := "dataset" }])],
      status := 400 }

/-- An error body whose bracketed token ends in a doubled `.keyword` suffix:
one trimming still leaves a key ending in `.keyword`. -/
def doubledKeywordBody : Body :=
  .decoded
    { error :=
        [("root_cause",
          [{ type := "illegal_argument_exception",
             reason := "Fielddata is disabled on [a.keyword.keyword]",
             index := "dataset" }])],
      status := 400 }

/-- The clause the tools translator emits for `dateRangeFilterEntry`. -/
def dateRangeToolsClause : JsonVal :=
  boolShould [termClause "dateRange" (.str "2020-01-01"),
              termClause "dateRange" (.str "2021-12-31")]

/-- The clause the dataset translator emits for `dateRangeFilterEntry`. -/
def dateRangeDatasetClause : JsonVal :=
  boolMust
    [.obj [("range", .obj [("startDate", .obj [("lte", .str "2021-12-31")])])],
     .obj [("range", .obj [("endDate", .obj [("gte", .str "2020-01-01")])])]]

theorem processToken_snd (st : OverrideCache × Bool) (tok : String) :
    (processToken st tok).2 = (st.2 || validToken tok) := by
  unfold processToken validToken
  by_cases h : (goTrimSpace tok = "" ∨ hasSpace (goTrimSpace tok) = true)
  · simp [h]
    intro h1 h2
    rcases h with h | h
    · exact absurd h h1
    · rw [h] at h2
      exact absurd h2 (by simp)
  · push_neg at h
    cases hl : lookupA st.1 (trimSuffixKeyword (goTrimSpace tok)) <;>
      simp [h.1, h.2, hl]

theorem foldl_processToken_snd (toks : List String) (st : OverrideCache × Bool) :
    (toks.foldl processToken st).2 = (st.2 || toks.any validToken) := by
  induction toks generalizing st with
  | nil => simp
  | cons t rest ih =>
      simp only [List.foldl_cons, List.any_cons]
      rw [ih, processToken_snd, Bool.or_assoc]

theorem processCause_snd (st : OverrideCache × Bool) (cause : RootCause) :
    (processCause st cause).2 = (st.2 || causeTriggers cause) := by
  unfold processCause causeTriggers
  by_cases h : (strContains cause.reason "Text fields are not optimised" ||
      strContains cause.reason "Fielddata is disabled") = true
  · simp [h, foldl_processToken_snd]
  · simp at h
    simp [h.1, h.2]

theorem foldl_processCause_snd (causes : List RootCause) (st : OverrideCache × Bool) :
    (causes.foldl processCause st).2 = (st.2 || causes.any causeTriggers) := by
  induction causes generalizing st with
  | nil => simp
  | cons c rest ih =>
      simp only [List.foldl_cons, List.any_cons]
      rw [ih, processCause_snd, Bool.or_assoc]

/-- The `updated` flag returned by `updateAggregationOverridesFromError` is
exactly the signature check, and in particular does not depend on what the
cache already contains. -/
theorem update_snd_eq_bodySignature (cache : OverrideCache) (body : Body) :
    (updateAggregationOverridesFromError cache body).2 = bodySignature body := by
  unfold updateAggregationOverridesFromError bodySignature
  cases body with
  | empty => rfl
  | undecodable => rfl
  | decoded e =>
      cases hl : lookupA e.error "root_cause" with
      | none => simp [hl]
      | some causes =>
          cases causes with
          | nil => simp [hl]
          | cons c rest =>
              simp [hl, foldl_processCause_snd, processCause_snd]

/-- The attempt count of `executeSearchWithRetry` is 2 exactly when attempt 1
returned nil hits with a non-empty body whose signature matches. -/
theorem executeSearchWithRetry_attempts (oracle : Nat → SearchResponseM × Body)
    (cache : OverrideCache) :
    (executeSearchWithRetry oracle cache).attempts =
      if (oracle 0).1.hits = none ∧ (oracle 0).2 ≠ Body.empty ∧
          bodySignature (oracle 0).2 = true then 2 else 1 := by
  unfold executeSearchWithRetry
  by_cases h1 : ((oracle 0).1.hits ≠ none ∨ (oracle 0).2 = Body.empty)
  · rw [if_pos h1]
    have hneg : ¬((oracle 0).1.hits = none ∧ (oracle 0).2 ≠ Body.empty ∧
        bodySignature (oracle 0).2 = true) := by
      rcases h1 with h | h
      · rintro ⟨ha, _, _⟩
        exact h ha
      · rintro ⟨_, hb, _⟩
        exact hb h
    rw [if_neg hneg]
  · rw [if_neg h1]
    dsimp only
    push_neg at h1
    by_cases h2 : bodySignature (oracle 0).2 = true
    · have hu : (updateAggregationOverridesFromError cache (oracle 0).2).2 = true := by
        rw [update_snd_eq_bodySignature]
        exact h2
      rw [hu]
      rw [if_neg (show ¬((!true) = true) by simp)]
      rw [if_pos (show (oracle 0).1.hits = none ∧ (oracle 0).2 ≠ Body.empty ∧
        bodySignature (oracle 0).2 = true from ⟨h1.1, h1.2, h2⟩)]
      split <;> rfl
    · have hu : (updateAggregationOverridesFromError cache (oracle 0).2).2 = false := by
        rw [update_snd_eq_bodySignature]
        simpa using h2
      have hneg : ¬((oracle 0).1.hits = none ∧ (oracle 0).2 ≠ Body.empty ∧
          bodySignature (oracle 0).2 = true) := by
        rintro ⟨_, _, h⟩
        exact h2 h
      rw [hu]
      rw [if_pos (show (!false) = true by simp)]
      rw [if_neg hneg]

/-- C1 counterexample: with the `publisherName` override already cached and a
matching fielddata error body, the executor does NOT skip attempt 2 — it
makes two attempts even though no new override is registered (the cache is
unchanged).  The claim says attempt 2 is skipped when the override already
existed. -/
theorem retry_runs_second_attempt_despite_existing_override :
    (executeSearchWithRetry fielddataOracle presetCache).attempts = 2 ∧
      (executeSearchWithRetry fielddataOracle presetCache).cache = presetCache := by
  exact ⟨by decide, by decide⟩

/-- C1 (amended): a second attempt occurs exactly when attempt 1 returned nil
hits together with a non-empty body and `updateAggregationOverridesFromError`
reported an update — and that report is independent of the cache contents, so
an already-present override still triggers the retry (the source deliberately
counts an existing override as an update). -/
theorem retry_second_attempt_iff_update_reported :
    (∀ (oracle : Nat → SearchResponseM × Body) (cache : OverrideCache),
        (executeSearchWithRetry oracle cache).attempts = 2 ↔
          ((oracle 0).1.hits = none ∧ (oracle 0).2 ≠ Body.empty ∧
            (updateAggregationOverridesFromError cache (oracle 0).2).2 = true)) ∧
    (∀ (cacheA cacheB : OverrideCache) (body : Body),
        (updateAggregationOverridesFromError cacheA body).2 =
          (updateAggregationOverridesFromError cacheB body).2) := by
  constructor
  · intro oracle cache
    rw [executeSearchWithRetry_attempts, update_snd_eq_bodySignature]
    by_cases hP : ((oracle 0).1.hits = none ∧ (oracle 0).2 ≠ Body.empty ∧
        bodySignature (oracle 0).2 = true)
    · simp [hP]
    · simp only [if_neg hP]
      constructor
      · intro h
        exact absurd h (by norm_num)
      · intro h
        exact absurd h hP
  · intro cacheA cacheB body
    rw [update_snd_eq_bodySignature, update_snd_eq_bodySignature]

theorem lookupA_insertA {α : Type} (m : List (String × α)) (k k' : String) (v : α) :
    lookupA (insertA m k v) k' = if k = k' then some v else lookupA m k' := by
  induction m with
  | nil => simp [insertA, lookupA]
  | cons p rest ih =>
      by_cases h : p.1 = k
      · by_cases h2 : k = k'
        · simp [insertA, h, h2, lookupA]
        · simp [insertA, h, h2, lookupA]
      · by_cases h2 : p.1 = k'
        · have hne : ¬(k = k') := by
            intro hk
            exact h (hk ▸ h2)
          have hne' : ¬(k' = k) := fun hk => hne hk.symm
          simp [insertA, h, h2, lookupA, hne, hne']
        · simp [insertA, h, h2, lookupA, ih]

theorem setAggregationFieldOverride_idem (cache : OverrideCache) (k v : String) :
    setAggregationFieldOverride (setAggregationFieldOverride cache k v) k v =
      setAggregationFieldOverride cache k v := by
  unfold setAggregationFieldOverride
  cases hl : lookupA cache k with
  | some ex =>
      by_cases he : ex = v
      · simp [hl, he]
      · simp [hl, he, lookupA_insertA]
  | none =>
      simp [hl, lookupA_insertA]

/-- C8: registering the same `field -> field.keyword` mapping twice leaves the
override cache with the same key set and the same resolved value for every
field as registering it once. -/
theorem overrideCache_registration_idempotent :
    ∀ (cache : OverrideCache) (field : String),
      ((setAggregationFieldOverride
          (setAggregationFieldOverride cache field (field ++ ".keyword"))
          field (field ++ ".keyword")).map Prod.fst =
        (setAggregationFieldOverride cache field (field ++ ".keyword")).map Prod.fst) ∧
      ∀ f, resolveAggregationField
          (setAggregationFieldOverride
            (setAggregationFieldOverride cache field (field ++ ".keyword"))
            field (field ++ ".keyword")) f =
        resolveAggregationField
          (setAggregationFieldOverride cache field (field ++ ".keyword")) f := by
  intro cache field
  rw [setAggregationFieldOverride_idem]
  exact ⟨rfl, fun _ => rfl⟩

/-- C5: `populationRanges` yields exactly 10 buckets: the
`{-1, 1, "Unreported"}` bucket first, then the nine power-of-ten buckets
`{10^i, 10^(i+1)}` for `i = 0..8`, in ascending order of `i`. -/
theorem populationRanges_ten_buckets :
    populationRanges.length = 10 ∧
    populationRanges.head? =
      some { rangeFrom := -1, rangeTo := 1, key := some "Unreported" } ∧
    ∀ i : Nat, i < 9 →
      populationRanges[i + 1]? =
        some { rangeFrom := 10 ^ i, rangeTo := 10 ^ (i + 1), key := none } := by
  refine ⟨by simp [populationRanges], rfl, ?_⟩
  intro i hi
  simp [populationRanges, List.getElem?_map, List.getElem?_range, hi]

/-- Witness for C5 at `i = 3`: the fifth bucket is `{1000, 10000}`. -/
theorem populationRanges_ten_buckets_witness :
    3 < 9 ∧ populationRanges[4]? =
      some { rangeFrom := 1000, rangeTo := 10000, key := none } := by
  refine ⟨by norm_num, ?_⟩
  have h := populationRanges_ten_buckets.2.2 3 (by norm_num)
  simpa using h

/-- C2 (code bug): a malformed (non-list) filter value makes the tools
translation panic via the unchecked type assertion `terms.([]interface{})`;
no query document is produced, and the clause for the remaining well-formed
entry is lost, contrary to the skip-and-continue behaviour the design
requires. -/
theorem toolsTranslation_panics_on_malformed_filter :
    toolsMustFilters malformedToolFilters = .error .typeAssertion := rfl

theorem buildMustFilters_of_specTranslate
    (specF : String → JsonVal → Option JsonVal)
    (srcF : String → JsonVal → Except GoPanic JsonVal)
    (hentry : ∀ k v c, specF k v = some c → srcF k v = .ok c) :
    ∀ entries cs, specTranslate specF entries = some cs →
      buildMustFilters srcF entries = .ok cs := by
  intro entries
  induction entries with
  | nil =>
      intro cs h
      simp [specTranslate] at h
      subst h
      rfl
  | cons p rest ih =>
      obtain ⟨k, t⟩ := p
      intro cs h
      cases hc : specF k t with
      | none => simp [specTranslate, hc] at h
      | some c =>
          cases hs : specTranslate specF rest with
          | none => simp [specTranslate, hc, hs] at h
          | some cs' =>
              simp [specTranslate, hc, hs] at h
              subst h
              simp [buildMustFilters, hentry k t c hc, ih cs' hs]
              rfl

theorem specDatasetClause_sound (k : String) (v : JsonVal) (c : JsonVal)
    (h : specDatasetClause k v = some c) : datasetFilterClause k v = .ok c := by
  unfold specDatasetClause at h
  unfold datasetFilterClause genericTermFilter
  by_cases h1 : k = "dateRange"
  · simp only [h1, if_pos] at h ⊢
    cases v with
    | arr ts =>
        cases ts with
        | nil => simp at h
        | cons a tl =>
            cases tl with
            | nil => simp at h
            | cons b tl2 =>
                simp at h
                subst h
                rfl
    | null => simp at h
    | bool b => simp at h
    | num n => simp at h
    | str s => simp at h
    | obj kvs => simp at h
  · by_cases h2 : k = "populationSize"
    · simp only [h1, h2, if_neg, if_pos, reduceIte] at h ⊢
      cases v with
      | obj kvs =>
          cases hu : lookupA kvs "includeUnreported" with
          | none => simp [hu] at h
          | some u =>
              cases u with
              | bool b =>
                  cases b with
                  | true =>
                      simp [hu] at h
                      subst h
                      simp [hu]
                  | false =>
                      simp [hu] at h
                      subst h
                      simp [hu]
              | null => simp [hu] at h
              | num n => simp [hu] at h
              | str s => simp [hu] at h
              | arr xs => simp [hu] at h
              | obj o => simp [hu] at h
      | null => simp at h
      | bool b => simp at h
      | num n => simp at h
      | str s => simp at h
      | arr xs => simp at h
    · simp only [h1, h2, if_neg, reduceIte] at h ⊢
      cases v with
      | arr ts =>
          simp at h
          subst h
          rfl
      | null => simp at h
      | bool b => simp at h
      | num n => simp at h
      | str s => simp at h
      | obj kvs => simp at h

theorem specToolsClause_sound (k : String) (v : JsonVal) (c : JsonVal)
    (h : specToolsClause k v = some c) : toolsFilterClause k v = .ok c := by
  unfold specToolsClause at h
  unfold toolsFilterClause genericTermFilter
  cases v with
  | arr ts =>
      simp at h
      subst h
      rfl
  | null => simp at h
  | bool b => simp at h
  | num n => simp at h
  | str s => simp at h
  | obj kvs => simp at h

theorem specPublicationClause_sound (k : String) (v : JsonVal) (c : JsonVal)
    (h : specPublicationClause k v = some c) : publicationFilterClause k v = .ok c := by
  unfold specPublicationClause at h
  unfold publicationFilterClause genericTermFilter
  by_cases h1 : k = "publicationDate"
  · simp only [h1, if_pos] at h ⊢
    cases v with
    | arr ts =>
        cases ts with
        | nil => simp at h
        | cons a tl =>
            cases tl with
            | nil => simp at h
            | cons b tl2 =>
                simp at h
                subst h
                rfl
    | null => simp at h
    | bool b => simp at h
    | num n => simp at h
    | str s => simp at h
    | obj kvs => simp at h
  · simp only [h1, if_neg, reduceIte] at h ⊢
    cases v with
    | arr ts =>
        simp at h
        subst h
        rfl
    | null => simp at h
    | bool b => simp at h
    | num n => simp at h
    | str s => simp at h
    | obj kvs => simp at h

/-- C4 (amended): each translator emits one clause per filter key, combined
with AND (`bool`/`must`) in the post filter and OR within a key's values; the
range special cases are per-entity: `dateRange` and `populationSize` for the
dataset translator (`populationSize` with `includeUnreported` ORs the range
with the exact `-1` sentinel term), `publicationDate` for the publication
translator, and none for the tools translator, whose keys all take the
generic term branch. -/
theorem perEntity_filter_clause_shapes :
    (∀ entries cs, specTranslate specDatasetClause entries = some cs →
        datasetMustFilters entries = .ok cs ∧
        postFilterOf (datasetMustFilters entries) = .ok (boolMust cs)) ∧
    (∀ entries cs, specTranslate specToolsClause entries = some cs →
        toolsMustFilters entries = .ok cs ∧
        postFilterOf (toolsMustFilters entries) = .ok (boolMust cs)) ∧
    (∀ entries cs, specTranslate specPublicationClause entries = some cs →
        publicationMustFilters entries = .ok cs ∧
        postFilterOf (publicationMustFilters entries) = .ok (boolMust cs)) := by
  refine ⟨fun entries cs h => ?_, fun entries cs h => ?_, fun entries cs h => ?_⟩
  · have hm := buildMustFilters_of_specTranslate specDatasetClause datasetFilterClause
      specDatasetClause_sound entries cs h
    exact ⟨hm, by simp only [postFilterOf, datasetMustFilters, toolsMustFilters, publicationMustFilters]; rw [hm]; rfl⟩
  · have hm := buildMustFilters_of_specTranslate specToolsClause toolsFilterClause
      specToolsClause_sound entries cs h
    exact ⟨hm, by simp only [postFilterOf, datasetMustFilters, toolsMustFilters, publicationMustFilters]; rw [hm]; rfl⟩
  · have hm := buildMustFilters_of_specTranslate specPublicationClause publicationFilterClause
      specPublicationClause_sound entries cs h
    exact ⟨hm, by simp only [postFilterOf, datasetMustFilters, toolsMustFilters, publicationMustFilters]; rw [hm]; rfl⟩

/-- Witness for C4: the three-shape dataset sample translates as stated. -/
theorem perEntity_filter_clause_shapes_witness :
    specTranslate specDatasetClause datasetSampleFilters = some datasetSampleClauses ∧
    datasetMustFilters datasetSampleFilters = .ok datasetSampleClauses :=
  ⟨rfl, (perEntity_filter_clause_shapes.1 datasetSampleFilters datasetSampleClauses rfl).1⟩

/-- C4 counterexample: for the tools entity the `dateRange` key does NOT emit
a range clause — it takes the generic term branch — while the dataset
translator emits a range clause for the identical entry.  The claim's "for
every entity type" is therefore false. -/
theorem toolsDateRange_takes_generic_branch :
    toolsMustFilters dateRangeFilterEntry = .ok [dateRangeToolsClause] ∧
    hasRangeSubclause dateRangeToolsClause = false ∧
    datasetMustFilters dateRangeFilterEntry = .ok [dateRangeDatasetClause] ∧
    hasRangeSubclause dateRangeDatasetClause = true :=
  ⟨rfl, rfl, rfl, rfl⟩

theorem bodySignature_errorSignature (body : Body) (h : bodySignature body = true) :
    errorSignature body := by
  cases body with
  | empty => simp [bodySignature] at h
  | undecodable => simp [bodySignature] at h
  | decoded e =>
      simp only [bodySignature] at h
      cases hl : lookupA e.error "root_cause" with
      | none =>
          rw [hl] at h
          simp at h
      | some causes =>
          rw [hl] at h
          rw [List.any_eq_true] at h
          obtain ⟨c, hmem, ht⟩ := h
          unfold causeTriggers at ht
          rw [Bool.and_eq_true] at ht
          obtain ⟨hph, htok⟩ := ht
          refine ⟨e, causes, c, rfl, hl, hmem, ?_, ?_⟩
          · rw [Bool.or_eq_true] at hph
            exact hph
          · intro hnil
            rw [hnil] at htok
            simp at htok

theorem attemptOnce_retry_cases (cache : OverrideCache) (ft fk : String)
    (outcome : CallOutcome) (c : OverrideCache)
    (h : attemptOnce cache ft fk outcome true = .retry c) :
    (∃ body, outcome = .httpError body ∧ bodySignature body = true) ∨
    (∃ body resp, outcome = .okResp body resp ∧ resp.aggregations = [] ∧
      bodySignature body = true) := by
  cases outcome with
  | transportError => simp [attemptOnce] at h
  | nilResponse => simp [attemptOnce] at h
  | readError => simp [attemptOnce] at h
  | httpError body =>
      left
      refine ⟨body, rfl, ?_⟩
      simp only [attemptOnce, if_true] at h
      cases hu : (updateAggregationOverridesFromError cache body).2 with
      | true => rw [← update_snd_eq_bodySignature cache body, hu]
      | false => simp [hu] at h
  | okResp body resp =>
      simp only [attemptOnce, if_true] at h
      cases ha : resp.aggregations.isEmpty with
      | false =>
          rw [ha] at h
          simp only [Bool.false_eq_true, if_false] at h
          by_cases hk : (fk = "dateRange" ∨ fk = "publicationDate")
          · rw [if_pos hk] at h
            cases hs : safeAggValue resp.aggregations "startDate" with
            | none =>
                rw [hs] at h
                simp at h
            | some sv =>
                rw [hs] at h
                cases he : safeAggValue resp.aggregations "endDate" with
                | none =>
                    rw [he] at h
                    simp at h
                | some ev =>
                    rw [he] at h
                    simp at h
          · rw [if_neg hk] at h
            simp at h
      | true =>
          rw [ha] at h
          simp only [if_true] at h
          cases hu : (updateAggregationOverridesFromError cache body).2 with
          | true =>
              right
              refine ⟨body, resp, rfl, by simpa using ha, ?_⟩
              rw [← update_snd_eq_bodySignature cache body, hu]
          | false => simp [hu] at h

/-- C3: both retry protocols make at most two backend attempts, and a second
attempt occurs only when attempt one returned nil hits together with a
non-empty error body — or, on the filter-listing path, an error status or an
empty aggregation set — whose root-cause reasons match the known signature
(one of the two phrases plus a bracketed field-name token). -/
theorem retry_protocol_at_most_two_attempts :
    (∀ (oracle : Nat → SearchResponseM × Body) (cache : OverrideCache),
        (executeSearchWithRetry oracle cache).attempts ≤ 2 ∧
        ((executeSearchWithRetry oracle cache).attempts = 2 →
          (oracle 0).1.hits = none ∧ (oracle 0).2 ≠ Body.empty ∧
            errorSignature (oracle 0).2)) ∧
    (∀ (oracle : Nat → CallOutcome) (pair : List (String × JsonVal))
        (cache : OverrideCache),
        (processPair oracle pair cache).calls ≤ 2 ∧
        ((processPair oracle pair cache).calls = 2 →
          (∃ body, oracle 0 = .httpError body ∧ errorSignature body) ∨
          (∃ body resp, oracle 0 = .okResp body resp ∧ resp.aggregations = [] ∧
            errorSignature body))) := by
  constructor
  · intro oracle cache
    rw [executeSearchWithRetry_attempts]
    by_cases hP : ((oracle 0).1.hits = none ∧ (oracle 0).2 ≠ Body.empty ∧
        bodySignature (oracle 0).2 = true)
    · rw [if_pos hP]
      exact ⟨le_refl 2,
        fun _ => ⟨hP.1, hP.2.1, bodySignature_errorSignature _ hP.2.2⟩⟩
    · rw [if_neg hP]
      exact ⟨by norm_num, fun h => absurd h (by norm_num)⟩
  · intro oracle pair cache
    unfold processPair processPairLoop
    dsimp only
    constructor
    · split
      · norm_num
      · split <;> norm_num
    · split
      · intro h
        simp at h
      · rename_i c hstep
        intro _
        rcases attemptOnce_retry_cases _ _ _ _ _ hstep with ⟨b, hb, hsig⟩ | ⟨b, r, hb, hr, hsig⟩
        · exact Or.inl ⟨b, hb, bodySignature_errorSignature _ hsig⟩
        · exact Or.inr ⟨b, r, hb, hr, bodySignature_errorSignature _ hsig⟩

/-- Witness for C3: with a text-fields error body the retry protocol does run
a second attempt, and the conditions the theorem names hold there. -/
theorem retry_protocol_at_most_two_attempts_witness :
    (textFieldsOracle 0).1.hits = none ∧ (textFieldsOracle 0).2 ≠ Body.empty ∧
      errorSignature (textFieldsOracle 0).2 :=
  (retry_protocol_at_most_two_attempts.1 textFieldsOracle []).2 (by decide)

theorem hasSpace_trimSuffixKeyword (s : String) (h : hasSpace s = false) :
    hasSpace (trimSuffixKeyword s) = false := by
  unfold trimSuffixKeyword
  split
  · show (s.data.take (s.data.length - 8)).any (fun c => c = ' ') = false
    by_contra hq
    rw [Bool.not_eq_false, List.any_eq_true] at hq
    obtain ⟨c, hc, hcp⟩ := hq
    have hmem : c ∈ s.data := List.mem_of_mem_take hc
    have : hasSpace s = true := by
      unfold hasSpace
      rw [List.any_eq_true]
      exact ⟨c, hmem, hcp⟩
    rw [h] at this
    exact Bool.false_ne_true this
  · exact h

theorem CacheInv_insertA (m : OverrideCache) (k : String) (hm : CacheInv m)
    (hk : hasSpace k = false) : CacheInv (insertA m k (k ++ ".keyword")) := by
  induction m with
  | nil =>
      intro p hp
      simp only [insertA, List.mem_singleton] at hp
      subst hp
      exact ⟨hk, rfl⟩
  | cons q rest ih =>
      unfold insertA
      by_cases hq : q.1 = k
      · rw [if_pos hq]
        intro p hp
        rcases List.mem_cons.mp hp with h | h
        · subst h
          exact ⟨hk, rfl⟩
        · exact hm p (List.mem_cons_of_mem _ h)
      · rw [if_neg hq]
        intro p hp
        rcases List.mem_cons.mp hp with h | h
        · subst h
          exact hm _ (List.mem_cons_self _ _)
        · exact ih (fun r hr => hm r (List.mem_cons_of_mem _ hr)) p h

theorem CacheInv_set (m : OverrideCache) (k : String) (hm : CacheInv m)
    (hk : hasSpace k = false) :
    CacheInv (setAggregationFieldOverride m k (k ++ ".keyword")) := by
  unfold setAggregationFieldOverride
  cases hl : lookupA m k with
  | some existing =>
      simp only [hl]
      split
      · exact hm
      · exact CacheInv_insertA m k hm hk
  | none =>
      simp only [hl]
      exact CacheInv_insertA m k hm hk

theorem CacheInv_processToken (st : OverrideCache × Bool) (tok : String)
    (hm : CacheInv st.1) : CacheInv (processToken st tok).1 := by
  unfold processToken
  dsimp only
  split
  · exact hm
  · rename_i hguard
    simp only [Bool.or_eq_true, decide_eq_true_eq, not_or] at hguard
    have hns : hasSpace (goTrimSpace tok) = false := by
      have := hguard.2
      revert this
      cases hasSpace (goTrimSpace tok) <;> simp
    have hns2 : hasSpace (trimSuffixKeyword (goTrimSpace tok)) = false :=
      hasSpace_trimSuffixKeyword _ hns
    cases hl : lookupA st.1 (trimSuffixKeyword (goTrimSpace tok)) with
    | some _ =>
        simp only [hl]
        exact hm
    | none =>
        simp only [hl]
        exact CacheInv_set st.1 _ hm hns2

theorem CacheInv_foldl_processToken (toks : List String) (st : OverrideCache × Bool)
    (hm : CacheInv st.1) : CacheInv ((toks.foldl processToken st).1) := by
  induction toks generalizing st with
  | nil => exact hm
  | cons t rest ih => exact ih _ (CacheInv_processToken st t hm)

theorem CacheInv_processCause (st : OverrideCache × Bool) (cause : RootCause)
    (hm : CacheInv st.1) : CacheInv (processCause st cause).1 := by
  unfold processCause
  split
  · exact hm
  · exact CacheInv_foldl_processToken _ st hm

theorem CacheInv_foldl_processCause (causes : List RootCause) (st : OverrideCache × Bool)
    (hm : CacheInv st.1) : CacheInv ((causes.foldl processCause st).1) := by
  induction causes generalizing st with
  | nil => exact hm
  | cons c rest ih => exact ih _ (CacheInv_processCause st c hm)

/-- C10 (amended): every mutation of the override cache through the error
recovery preserves the invariant that stored keys contain no space and every
stored value is its key with `.keyword` appended; and resolving a key with no
entry returns the key unchanged.  (The claim's further conditions — keys
non-empty and not ending in `.keyword` — do not hold; see the
counterexample.) -/
theorem overrideCache_invariant_preserved :
    (∀ (cache : OverrideCache) (body : Body), CacheInv cache →
        CacheInv (updateAggregationOverridesFromError cache body).1) ∧
    (∀ (cache : OverrideCache) (key : String), lookupA cache key = none →
        resolveAggregationField cache key = key) := by
  constructor
  · intro cache body hm
    cases body with
    | empty => exact hm
    | undecodable => exact hm
    | decoded e =>
        simp only [updateAggregationOverridesFromError]
        cases hl : lookupA e.error "root_cause" with
        | none => exact hm
        | some causes =>
            cases causes with
            | nil => exact hm
            | cons c rest => exact CacheInv_foldl_processCause _ _ hm
  · intro cache key hl
    unfold resolveAggregationField
    rw [hl]

/-- Witness for C10: the invariant survives a concrete recovery pass from the
empty cache, and an absent key resolves to itself. -/
theorem overrideCache_invariant_preserved_witness :
    CacheInv (updateAggregationOverridesFromError [] bareKeywordBody).1 ∧
      resolveAggregationField [] "publisherName" = "publisherName" :=
  ⟨overrideCache_invariant_preserved.1 [] bareKeywordBody
      (by intro p hp; simp at hp),
   overrideCache_invariant_preserved.2 [] "publisherName" rfl⟩

/-- C10 counterexample: a bracketed `[.keyword]` token stores the EMPTY key
(violating "each stored key is non-empty"), and a bracketed
`[a.keyword.keyword]` token stores the key `a.keyword`, which still ends in
`.keyword` (violating "does not end in .keyword") — `strings.TrimSuffix`
removes the suffix only once. -/
theorem overrideCache_invariant_violations :
    (updateAggregationOverridesFromError [] bareKeywordBody).1 = [("", ".keyword")] ∧
    (updateAggregationOverridesFromError [] doubledKeywordBody).1 =
      [("a.keyword", "a.keyword.keyword")] ∧
    isSuffixL ".keyword".data "a.keyword".data = true :=
  ⟨by decide, by decide, by decide⟩

theorem insertA_notmem {α : Type} (m : List (String × α)) (k : String) (v : α)
    (h : k ∉ m.map Prod.fst) : insertA m k v = m ++ [(k, v)] := by
  induction m with
  | nil => rfl
  | cons q rest ih =>
      have hq : ¬(q.1 = k) := by
        intro he
        exact h (by simp [he])
      simp only [insertA, if_neg hq, List.cons_append]
      rw [ih (fun hr => h (by simp [hr]))]

theorem flattenAggs_fold_flat (aggs acc : List (String × JsonVal))
    (hflat : aggs.all (fun kv =>
      match kv.2 with
      | .obj fields =>
          decide (kv.1 ≠ "dateRange") && decide (kv.1 ≠ "publicationDate") &&
            (lookupA fields kv.1).isNone
      | _ => false) = true)
    (hnodup : (aggs.map Prod.fst).Nodup)
    (hfresh : ∀ k ∈ aggs.map Prod.fst, k ∉ acc.map Prod.fst) :
    aggs.foldl
      (fun newAggs kv =>
        match kv.2 with
        | .obj aggMap =>
            if kv.1 = "dateRange" ∨ kv.1 = "publicationDate" then
              let newAggs :=
                match lookupA aggMap "startDate" with
                | some start => insertA newAggs "startDate" start
                | none => newAggs
              match lookupA aggMap "endDate" with
              | some endV => insertA newAggs "endDate" endV
              | none => newAggs
            else
              match lookupA aggMap kv.1 with
              | some nested => insertA newAggs kv.1 nested
              | none => insertA newAggs kv.1 (.obj aggMap)
        | _ => newAggs)
      acc = acc ++ aggs := by
  induction aggs generalizing acc with
  | nil => simp
  | cons kv rest ih =>
      obtain ⟨k, v⟩ := kv
      rw [List.all_cons, Bool.and_eq_true] at hflat
      obtain ⟨hent, hrest⟩ := hflat
      cases v with
      | obj fields =>
          simp only [Bool.and_eq_true, decide_eq_true_eq, Option.isNone_iff_eq_none] at hent
          obtain ⟨⟨hd, hp⟩, hlk⟩ := hent
          have hkey : ¬(k = "dateRange" ∨ k = "publicationDate") := by
            rintro (h | h)
            · exact hd h
            · exact hp h
          simp only [List.foldl_cons, if_neg hkey, hlk]
          have hknotin : k ∉ acc.map Prod.fst := by
            exact hfresh k (by simp)
          rw [insertA_notmem acc k _ hknotin]
          rw [List.map_cons, List.nodup_cons] at hnodup
          have := ih (acc ++ [(k, JsonVal.obj fields)]) hrest hnodup.2 ?_
          · rw [this, List.append_assoc]
            rfl
          · intro k' hk' hmem
            rw [List.map_append] at hmem
            rcases List.mem_append.mp hmem with hmem | hmem
            · exact hfresh k' (by simp [hk']) hmem
            · simp at hmem
              subst hmem
              exact hnodup.1 hk'
      | null => simp at hent
      | bool b => simp at hent
      | num n => simp at hent
      | str s2 => simp at hent
      | arr xs => simp at hent

theorem flattenAggs_flat (resp : SearchResponseM)
    (h : isFlatB resp.aggregations = true) : flattenAggs resp = resp.aggregations := by
  unfold isFlatB at h
  rw [Bool.and_eq_true, decide_eq_true_eq] at h
  unfold flattenAggs
  exact flattenAggs_fold_flat resp.aggregations [] h.2 h.1 (by simp)

/-- C7 (amended): on an already-flat aggregations map — distinct keys, no
range-special key, every value an object not nesting its own key — the
flattening normalizer is idempotent: applying it to its own output equals
applying it once.  (On arbitrary maps this fails; see the counterexample.) -/
theorem flattenAggs_idempotent_on_flat :
    ∀ resp : SearchResponseM, isFlatB resp.aggregations = true →
      flattenAggs { hits := resp.hits, aggregations := flattenAggs resp } =
        flattenAggs resp := by
  intro resp h
  have h1 := flattenAggs_flat resp h
  rw [h1]
  exact flattenAggs_flat { hits := resp.hits, aggregations := resp.aggregations } h

/-- Witness for C7: a concrete flat terms-bucket map. -/
theorem flattenAggs_idempotent_on_flat_witness :
    isFlatB flatSampleResp.aggregations = true ∧
      flattenAggs { hits := flatSampleResp.hits,
                    aggregations := flattenAggs flatSampleResp } =
        flattenAggs flatSampleResp :=
  ⟨rfl, flattenAggs_idempotent_on_flat flatSampleResp rfl⟩

/-- C7 counterexample: on a map whose value nests a sub-object under its own
key twice, flattening its own output hoists once more, so the second pass
differs from the first — flattening is not idempotent on arbitrary input. -/
theorem flattenAggs_not_idempotent :
    flattenAggs doublyNestedResp = [("a", .obj [("a", .num 1)])] ∧
    flattenAggs { hits := none, aggregations := flattenAggs doublyNestedResp } =
      [("a", .num 1)] ∧
    flattenAggs { hits := none, aggregations := flattenAggs doublyNestedResp } ≠
      flattenAggs doublyNestedResp := by
  refine ⟨rfl, rfl, ?_⟩
  intro h
  rw [show flattenAggs { hits := none, aggregations := flattenAggs doublyNestedResp } =
      [("a", JsonVal.num 1)] from rfl,
    show flattenAggs doublyNestedResp = [("a", JsonVal.obj [("a", JsonVal.num 1)])] from rfl] at h
  injection h with h1 h2
  injection h1 with hk hv
  cases hv

theorem listFiltersLoop_eq_reduceOption (oracle : Nat → Nat → CallOutcome) :
    ∀ (pairs : List (List (String × JsonVal))) (cache : OverrideCache) (i : Nat),
      listFiltersLoop oracle cache i pairs =
        (pairOutcomes oracle cache i pairs).reduceOption := by
  intro pairs
  induction pairs with
  | nil => intro cache i; rfl
  | cons p rest ih =>
      intro cache i
      unfold listFiltersLoop pairOutcomes
      cases hr : (processPair (oracle i) p cache).res with
      | some d => simp [hr, List.reduceOption_cons_of_some, ih]
      | none => simp [hr, List.reduceOption_cons_of_none, ih]

/-- C9: the filter-listing handler always answers HTTP 200, and its filters
list consists of exactly the successfully resolved pairs, one entry per
success, in input order — a pair whose per-pair processing (including the one
retry) yields no data is silently omitted without affecting the others. -/
theorem listFilters_partial_success :
    ∀ (oracle : Nat → Nat → CallOutcome) (pairs : List (List (String × JsonVal)))
      (cache : OverrideCache),
      (ListFilters oracle pairs cache).2 = 200 ∧
      (ListFilters oracle pairs cache).1 =
        (pairOutcomes oracle cache 0 pairs).reduceOption := by
  intro oracle pairs cache
  exact ⟨rfl, listFiltersLoop_eq_reduceOption oracle pairs cache 0⟩

theorem foldl_insert_lookup_notmem {α : Type} (l : List (String × α))
    (acc : List (String × α)) (k : String) (h : k ∉ l.map Prod.fst) :
    lookupA (l.foldl (fun m kv => insertA m kv.1 kv.2) acc) k = lookupA acc k := by
  induction l generalizing acc with
  | nil => rfl
  | cons kv rest ih =>
      have hk : ¬(kv.1 = k) := by
        intro he
        exact h (by simp [he])
      rw [List.foldl_cons, ih _ (fun hr => h (by simp [hr])), lookupA_insertA,
        if_neg hk]

theorem foldl_insert_lookup_mem {α : Type} (l : List (String × α))
    (acc : List (String × α)) (k : String) (v : α)
    (hnd : (l.map Prod.fst).Nodup) (hmem : (k, v) ∈ l) :
    lookupA (l.foldl (fun m kv => insertA m kv.1 kv.2) acc) k = some v := by
  induction l generalizing acc with
  | nil => cases hmem
  | cons kv rest ih =>
      rw [List.map_cons, List.nodup_cons] at hnd
      rcases List.mem_cons.mp hmem with h | h
      · subst h
        rw [List.foldl_cons, foldl_insert_lookup_notmem rest _ k hnd.1,
          lookupA_insertA, if_pos rfl]
      · exact ih _ hnd.2 h

/-- C6: whatever order the seven branches complete in, the merged result of
`SearchGeneric` maps exactly the seven configured entity-type keys, each to
its own branch's result; keys outside the configured set are absent, and one
branch's (possibly degraded) result never affects another key's entry. -/
theorem searchGeneric_fanout_keys :
    ∀ (f : String → SearchResponseM) (arrival : List (String × SearchResponseM)),
      arrival.Perm (entityChannels f) →
      (∀ k ∈ entityKeys, lookupA (searchGenericMerge arrival) k = some (f k)) ∧
      (∀ k, k ∉ entityKeys → lookupA (searchGenericMerge arrival) k = none) := by
  intro f arrival hp
  have hkeys : (arrival.map Prod.fst).Perm entityKeys := by
    have := hp.map Prod.fst
    simpa [entityChannels, List.map_map, Function.comp] using this
  have hnodupEK : entityKeys.Nodup := by decide
  have hnodup : (arrival.map Prod.fst).Nodup := hkeys.nodup_iff.mpr hnodupEK
  constructor
  · intro k hk
    have hmem : (k, f k) ∈ arrival :=
      hp.mem_iff.mpr (List.mem_map_of_mem _ hk)
    exact foldl_insert_lookup_mem arrival [] k (f k) hnodup hmem
  · intro k hk
    have hnot : k ∉ arrival.map Prod.fst := fun hmem => hk (hkeys.mem_iff.mp hmem)
    exact foldl_insert_lookup_notmem arrival [] k hnot

/-- Witness for C6: with the channels arriving in reversed order, the
`dataset` key still carries the dataset branch's result and an unconfigured
key (`paper`) is absent. -/
theorem searchGeneric_fanout_keys_witness :
    lookupA (searchGenericMerge (entityChannels sampleBranchResults).reverse)
        "dataset" = some (sampleBranchResults "dataset") ∧
    lookupA (searchGenericMerge (entityChannels sampleBranchResults).reverse)
        "paper" = none :=
  ⟨(searchGeneric_fanout_keys sampleBranchResults _ (List.reverse_perm _)).1
      "dataset" (by decide),
   (searchGeneric_fanout_keys sampleBranchResults _ (List.reverse_perm _)).2
      "paper" (by decide)⟩
